import Mathlib

/-!
Verification of the mamabear reconciliation worker (src/mamabear/worker.py)
against its natural-language specification.

The worker's entity model lives in mamabear/model.py, which is not part of
the sources available here; the entity structures and their elementary
query/relationship operations below are therefore modelled from the spec
(section 3, Data Model).  All reconciliation, probing and orchestration
logic is translated directly from src/mamabear/worker.py.

Conventions of the shallow embedding:
* an SQLAlchemy session together with the underlying database is a `DB`
  value: lists of hosts, containers and images;
* mutating an ORM object followed by `db.add`/`db.commit` is modelled by
  functional record update of the corresponding entry;
* timestamps are kept abstract: `dateutil.parser.parse` composed with the
  timezone normalisation of worker.py line 169/179-180 is an arbitrary
  function `pt : String -> Int` (total case) or
  `ptE : String -> Except Unit Int` (the parser can raise on malformed
  input, which matters for the orchestration claims);
* fallible external calls (`state_of_the_universe`, `requests.get`) are
  inputs of type `Except`/request-outcome functions.
-/

/-- Modelled from the spec: Image entity (model.py is not in src/).
Identity is the registry layer id, mutable attribute `tag`. -/
structure Image where
  id : String
  tag : String
deriving DecidableEq

/-- Modelled from the spec: Host entity (model.py is not in src/).
Identity hostname+port, attribute status. -/
structure Host where
  hostname : String
  port : Nat
  status : String
deriving DecidableEq

/-- Modelled from the spec: Container entity (model.py is not in src/).
`status` is the derived liveness (`none` until first assigned), `image`
is the weak reference to an Image (by image id), `host` the owning
host's hostname (the 1:N relationship `host.containers`). -/
structure Container where
  id : String
  image_ref : String
  state : String
  status : Option String
  started_at : Int
  finished_at : Int
  command : Option String
  image : Option String
  host : String
deriving DecidableEq

/-- A container descriptor of a host snapshot as consumed by
`update_host_containers` (worker.py lines 163-183): keys id, state,
image_id, image_ref, started_at, finished_at and optional command. -/
structure ContainerInfo where
  id : String
  state : String
  image_id : String
  image_ref : String
  started_at : String
  finished_at : String
  command : Option String
deriving DecidableEq

/-- The persisted entity graph reachable through one session. -/
structure DB where
  hosts : List Host
  containers : List Container
  images : List Image
deriving DecidableEq

/-- Modelled from the spec: `Container.get(db, id)`, primary-key lookup
used at worker.py line 164. -/
def Container.get (db : DB) (i : String) : Option Container :=
  db.containers.find? (fun c => c.id == i)

/-- Modelled from the spec: `Image.get(db, layer)`, primary-key lookup
used at worker.py line 174. -/
def Image.get (db : DB) (layer : String) : Option Image :=
  db.images.find? (fun im => im.id == layer)

/-- Modelled from the spec: the relationship collection `host.containers`
(worker.py line 153). -/
def DB.hostContainers (db : DB) (hid : String) : List Container :=
  db.containers.filter (fun c => c.host == hid)

/-- In-place mutation of a persisted container (mutate + `db.add`):
the row with the same primary key is replaced. -/
def DB.updateContainer (db : DB) (c : Container) : DB :=
  { db with containers := db.containers.map (fun x => if x.id == c.id then c else x) }

/-- `db.add` of a newly constructed container (worker.py line 187). -/
def DB.addContainer (db : DB) (c : Container) : DB :=
  { db with containers := db.containers ++ [c] }

/-- `host.status = s; db.add(host)` (worker.py lines 160-161). -/
def DB.setHostStatus (db : DB) (hid s : String) : DB :=
  { db with hosts := db.hosts.map (fun h => if h.hostname == hid then { h with status := s } else h) }

/-- Ids of a list of containers. -/
def idsOf (l : List Container) : List String := l.map Container.id

/-- Ids of a list of snapshot descriptors. -/
def infoIds (l : List ContainerInfo) : List String := l.map ContainerInfo.id

/-! ## Health Prober (`_check_app_status`, worker.py lines 100-114) -/

/-- Outcome of one `requests.get` attempt: either an HTTP response was
received (`resp ok` with `ok = r.ok`), or a request-level failure
(timeout, connection error) was raised, carried as `exn e`. -/
inductive ReqOutcome where
  | resp (ok : Bool)
  | exn (e : String)
deriving DecidableEq

/-- How `_check_app_status` terminates: a returned status string, or
re-raising the last recorded request-level exception. -/
inductive CheckResult where
  | status (s : String)
  | raised (e : Option String)
deriving DecidableEq

/-- Observable behaviour of one `_check_app_status` call: its result,
the number of `requests.get` calls issued and the number of
`time.sleep(5)` pauses executed. -/
structure ProbeResult where
  result : CheckResult
  attempts : Nat
  sleeps : Nat
deriving DecidableEq

/-- The retry loop of `_check_app_status` (worker.py lines 102-114),
parameterised by the outcome of each attempt (`responses n` is the
outcome of the `requests.get` on attempt number `n`, 1-based).  A
received response returns immediately; a request-level failure logs,
sleeps 5 seconds, records the exception and continues; when the loop
exhausts its attempts the `for`/`else` branch re-raises the last
exception. -/
def checkFrom (responses : Nat → ReqOutcome) : Nat → Nat → Option String → ProbeResult
  | _, 0, last => { result := CheckResult.raised last, attempts := 0, sleeps := 0 }
  | attempt, r + 1, _ =>
    match responses attempt with
    | ReqOutcome.resp ok =>
      { result := CheckResult.status (if ok then "up" else "down"), attempts := 1, sleeps := 0 }
    | ReqOutcome.exn e =>
      let rest := checkFrom responses (attempt + 1) r (some e)
      { result := rest.result, attempts := rest.attempts + 1, sleeps := rest.sleeps + 1 }

/-- `_check_app_status(url, timeout=10, retry)`: attempts are numbered
from 1, `last_exception` starts as `None`. -/
def check_app_status (responses : Nat → ReqOutcome) (retry : Nat) : ProbeResult :=
  checkFrom responses 1 retry none

/-! ## Health-status update (`update_deployment_status`, worker.py lines 120-142) -/

/-- A deployment's fields used by the prober. -/
structure Deployment where
  app_name : String
  image_tag : String
  environment : String
  status_port : Nat
  status_endpoint : String
deriving DecidableEq

/-- The probe URL built at worker.py lines 126-129:
`"http://%s:%s/%s" % (container.host.hostname, deployment.status_port,
deployment.status_endpoint)`. -/
def statusUrl (hostname : String) (dep : Deployment) : String :=
  "http://" ++ hostname ++ ":" ++ toString dep.status_port ++ "/" ++ dep.status_endpoint

/-- The status assigned to one container by the body of the loop in
`update_deployment_status`: running containers get the probe's result,
with a raised probe exception caught and mapped to "down"; all other
containers get "down" directly.  `env url n` is the outcome of attempt
`n` of a `requests.get` on `url`. -/
def containerStatusOf (dep : Deployment) (env : String → Nat → ReqOutcome) (c : Container) : String :=
  if c.state == "running" then
    match (check_app_status (env (statusUrl c.host dep)) 3).result with
    | CheckResult.status s => s
    | CheckResult.raised _ => "down"
  else "down"

/-- The body of the loop in `update_deployment_status` (worker.py lines
124-141): the accumulator pairs the containers written so far (with
their new `status`) with the URLs on which a network probe was issued. -/
def depStatusStep (dep : Deployment) (env : String → Nat → ReqOutcome)
    (acc : List Container × List String) (c : Container) : List Container × List String :=
  if c.state == "running" then
    let url := statusUrl c.host dep
    let pr := check_app_status (env url) 3
    let st := match pr.result with
      | CheckResult.status s => s
      | CheckResult.raised _ => "down"
    (acc.1 ++ [{ c with status := some st }], acc.2 ++ [url])
  else
    (acc.1 ++ [{ c with status := some "down" }], acc.2)

/-- `update_deployment_status` over the deployment's container list
(worker.py lines 120-142), instrumented with the list of URLs on which
a network probe was issued (second component). -/
def update_deployment_status (dep : Deployment) (env : String → Nat → ReqOutcome)
    (cs : List Container) : List Container × List String :=
  cs.foldl (depStatusStep dep env) ([], [])

/-! ## State Reconciler (`update_host_containers`, worker.py lines 144-196) -/

/-- The update branch for an existing container (worker.py lines 167-169):
only `state` and `finished_at` are written; `pt` is the composite
timestamp conversion `parser.parse(..).astimezone(tz.tzlocal()).replace(tzinfo=None)`. -/
def applyInfo (pt : String → Int) (c : Container) (info : ContainerInfo) : Container :=
  { c with state := info.state, finished_at := pt info.finished_at }

/-- The creation branch for an unseen container id (worker.py lines
172-187): a new row with the descriptor's fields, best-effort image
association by the first 8 characters of `image_id`, appended to
`host.containers`. -/
def newContainer (pt : String → Int) (hid : String) (db : DB) (info : ContainerInfo) : Container :=
  { id := info.id
    image_ref := info.image_ref
    state := info.state
    status := none
    started_at := pt info.started_at
    finished_at := pt info.finished_at
    command := info.command
    image := (Image.get db (info.image_id.take 8)).map Image.id
    host := hid }

/-- One iteration of the snapshot loop (worker.py lines 163-187),
assuming the two timestamp parses succeed. -/
def processInfo (pt : String → Int) (hid : String) (db : DB) (info : ContainerInfo) : DB :=
  match Container.get db info.id with
  | some c => db.updateContainer (applyInfo pt c info)
  | none => db.addContainer (newContainer pt hid db info)

/-- The deletion loop (worker.py lines 189-193): every container whose
id is in `toDelete` is removed. -/
def deleteStale (db : DB) (toDelete : List String) : DB :=
  { db with containers := db.containers.filter (fun c => !(toDelete.contains c.id)) }

/-- `update_host_containers(db, host, config)` for host `hid`
(worker.py lines 144-196), with the snapshot fetch
`wrapper.state_of_the_universe()` passed in as `fetch` (the adapter is
an external collaborator; a raised exception is `Except.error`).  On a
fetch failure the host is marked down and — the loop then running over
the empty default list — the deletion loop still executes.  Timestamp
parses are assumed to succeed here (see `update_host_containersE` for
the raising variant). -/
def update_host_containers (pt : String → Int) (db : DB) (hid : String)
    (fetch : Except Unit (List ContainerInfo)) : DB :=
  let previous := (db.hostContainers hid).map Container.id
  let step := match fetch with
    | Except.ok infos => (db, infos)
    | Except.error _ => (db.setHostStatus hid "down", [])
  let db2 := step.2.foldl (processInfo pt hid) step.1
  let newIds := step.2.map ContainerInfo.id
  deleteStale db2 (previous.filter (fun i => !(newIds.contains i)))

/-- Ids of this host's previously persisted containers that are absent
from the snapshot: the set deleted by the deletion loop. -/
def staleIds (db : DB) (hid : String) (infos : List ContainerInfo) : List String :=
  ((db.hostContainers hid).map Container.id).filter
    (fun i => !((infos.map ContainerInfo.id).contains i))

/-- The cumulative effect of the snapshot loop on one persisted
container: updated by the first descriptor with its id, if any. -/
def updOf (pt : String → Int) (infos : List ContainerInfo) (c : Container) : Container :=
  match infos.find? (fun i => i.id == c.id) with
  | some i => applyInfo pt c i
  | none => c

/-- A descriptor whose id is not persisted anywhere (the creation
branch applies). -/
def freshIn (db : DB) (info : ContainerInfo) : Bool :=
  (Container.get db info.id).isNone

/-! ## Raising variant of the State Reconciler

`dateutil.parser.parse` raises on a malformed timestamp and nothing in
`update_host_containers` catches that (only the snapshot fetch is inside
the `try`), so the exception propagates to the caller.  `ptE` returns
`Except.error` on such input. -/

/-- Outcome of one unit of work under the worker's per-unit
`try`/`commit`/`rollback` discipline: `ok d` is normal completion with
final committed state `d`; `fail d` means an exception escaped the unit
and `d` is the state after the session rollback discarded the unit's
uncommitted work. -/
inductive URes where
  | ok (db : DB)
  | fail (db : DB)
deriving DecidableEq

/-- One iteration of the snapshot loop with raising timestamp parses
(worker.py lines 163-187); parse order as in the source: the update
branch parses only `finished_at`, the creation branch parses
`started_at` then `finished_at`. -/
def processInfoE (ptE : String → Except Unit Int) (hid : String) (db : DB)
    (info : ContainerInfo) : Except Unit DB :=
  match Container.get db info.id with
  | some c =>
    match ptE info.finished_at with
    | Except.error e => Except.error e
    | Except.ok fin =>
      Except.ok (db.updateContainer { c with state := info.state, finished_at := fin })
  | none =>
    match ptE info.started_at with
    | Except.error e => Except.error e
    | Except.ok st =>
      match ptE info.finished_at with
      | Except.error e => Except.error e
      | Except.ok fin =>
        Except.ok (db.addContainer
          { id := info.id
            image_ref := info.image_ref
            state := info.state
            status := none
            started_at := st
            finished_at := fin
            command := info.command
            image := (Image.get db (info.image_id.take 8)).map Image.id
            host := hid })

/-- The snapshot loop with raising parses: the first exception aborts
the loop. -/
def foldInfosE (ptE : String → Except Unit Int) (hid : String) :
    List ContainerInfo → DB → Except Unit DB
  | [], db => Except.ok db
  | i :: rest, db =>
    match processInfoE ptE hid db i with
    | Except.error e => Except.error e
    | Except.ok db2 => foldInfosE ptE hid rest db2

/-- `update_host_containers` with raising timestamp parses.  The
function commits only at its very end (worker.py line 196), so when an
exception escapes, the caller's rollback restores the state at entry:
`URes.fail db`. -/
def update_host_containersE (ptE : String → Except Unit Int) (db : DB) (hid : String)
    (fetch : Except Unit (List ContainerInfo)) : URes :=
  let previous := (db.hostContainers hid).map Container.id
  let step := match fetch with
    | Except.ok infos => (db, infos)
    | Except.error _ => (db.setHostStatus hid "down", [])
  match foldInfosE ptE hid step.2 step.1 with
  | Except.error _ => URes.fail db
  | Except.ok db2 =>
    let newIds := step.2.map ContainerInfo.id
    URes.ok (deleteStale db2 (previous.filter (fun i => !(newIds.contains i))))

/-! ## Fleet Sync Orchestrator (`update_all`, `update_all_containers`,
worker.py lines 198-238) -/

/-- A `try`/`except`/`rollback` wrapper around one unit of work
(worker.py lines 217-221, 224-228, 231-235): the exception is caught
and the post-rollback state is used to continue. -/
def tryUnit (u : DB → URes) (db : DB) : DB :=
  match u db with
  | URes.ok d => d
  | URes.fail d => d

/-- An app together with the names of its deployments, as read by the
loop at worker.py lines 214-228. -/
structure AppRec where
  name : String
  deployments : List String
deriving DecidableEq

/-- The per-app body of `update_all` (worker.py lines 215-228): the
image sync wrapped in its own `try`, then each deployment sync wrapped
in its own `try`. -/
def syncApp (appSync depSync : String → DB → URes) (a : AppRec) (db : DB) : DB :=
  a.deployments.foldl (fun d dep => tryUnit (depSync dep) d) (tryUnit (appSync a.name) db)

/-- `update_all` (worker.py lines 210-238): all apps (with their
deployment units) in order, then the host-reconciliation step
`update_all_containers`, itself wrapped in a single `try`. -/
def update_all (apps : List AppRec) (appSync depSync : String → DB → URes)
    (hostStep : DB → URes) (db : DB) : DB :=
  tryUnit hostStep (apps.foldl (fun d a => syncApp appSync depSync a d) db)

/-- The loop of `update_all_containers` (worker.py lines 202-204):
`update_host_containers` for every host in order, with no per-host
`try` — the first escaping exception propagates. -/
def hostLoop (recon : String → DB → URes) : List String → DB → URes
  | [], db => URes.ok db
  | h :: hs, db =>
    match recon h db with
    | URes.ok d2 => hostLoop recon hs d2
    | URes.fail d2 => URes.fail d2

/-- `update_all_containers(db, config)` (worker.py lines 198-204): the
host list is read once by `db.query(Host).all()`. -/
def update_all_containersE (recon : String → DB → URes) (db : DB) : URes :=
  hostLoop recon (db.hosts.map Host.hostname) db

/-- The host-reconciliation step when every timestamp parses: a plain
fold of the pure reconciler over all hosts. -/
def update_all_containers (pt : String → Int)
    (fetchf : String → Except Unit (List ContainerInfo)) (db : DB) : DB :=
  (db.hosts.map Host.hostname).foldl
    (fun d h => update_host_containers pt d h (fetchf h)) db


/-! ## Concrete inputs used by counterexamples and witnesses -/

/-- A trivial total timestamp conversion for concrete runs. -/
def pt0 : String → Int := fun _ => 0

/-- A timestamp conversion that raises exactly on the malformed string
"BAD", as `dateutil.parser.parse` does on garbage input. -/
def ptE0 : String → Except Unit Int :=
  fun s => if s == "BAD" then Except.error () else Except.ok 0

def host1 : Host := { hostname := "h1", port := 2376, status := "up" }

def host2 : Host := { hostname := "h2", port := 2376, status := "up" }

def cont0 : Container :=
  { id := "c0", image_ref := "u/app:v1", state := "running", status := none,
    started_at := 0, finished_at := 0, command := none, image := none, host := "h1" }

/-- One host, one persisted container, no images. -/
def db1 : DB := { hosts := [host1], containers := [cont0], images := [] }

/-- Snapshot descriptor with the same id as `cont0` but different
image_ref, started_at and command. -/
def info2 : ContainerInfo :=
  { id := "c0", state := "exited", image_id := "abcdef1234", image_ref := "u/app:v2",
    started_at := "s2", finished_at := "f2", command := some "serve" }

/-- Snapshot descriptor with an unseen id whose image_id prefix matches
`img1`. -/
def infoNew : ContainerInfo :=
  { id := "c9", state := "exited", image_id := "abcdef1234", image_ref := "u/app:v3",
    started_at := "s", finished_at := "f", command := some "run.sh" }

def img1 : Image := { id := "abcdef12", tag := "v3" }

/-- One host, one persisted container, one image whose id equals the
first 8 characters of `infoNew.image_id`. -/
def db2 : DB := { hosts := [host1], containers := [cont0], images := [img1] }

def contStale : Container :=
  { id := "stale", image_ref := "u/app:v1", state := "exited", status := none,
    started_at := 0, finished_at := 0, command := none, image := none, host := "h2" }

/-- Two hosts; host h2 owns one stale container. -/
def db9 : DB := { hosts := [host1, host2], containers := [contStale], images := [] }

/-- A snapshot entry for h1 whose started_at is malformed. -/
def info9 : ContainerInfo :=
  { id := "n1", state := "running", image_id := "abcdef1234", image_ref := "u/app:v1",
    started_at := "BAD", finished_at := "f", command := none }

/-- h1 reports the malformed entry; h2 reports an empty snapshot (which
would delete `contStale`). -/
def fetch9 : String → Except Unit (List ContainerInfo) :=
  fun h => if h == "h1" then Except.ok [info9] else Except.ok []

/-- Every request attempt raises at the request level. -/
def respFail : Nat → ReqOutcome := fun n => ReqOutcome.exn ("e" ++ toString n)

/-- Every request attempt receives a non-success HTTP response. -/
def resp500 : Nat → ReqOutcome := fun _ => ReqOutcome.resp false

def depW : Deployment :=
  { app_name := "app", image_tag := "v1", environment := "prod",
    status_port := 8080, status_endpoint := "health" }

def contRun : Container :=
  { id := "c1", image_ref := "u/app:v1", state := "running", status := none,
    started_at := 0, finished_at := 0, command := none, image := none, host := "h1" }

/-- Request environment in which every URL always fails at request level. -/
def envFail : String → Nat → ReqOutcome := fun _ => respFail

def appsW : List AppRec :=
  [{ name := "A", deployments := ["D"] }, { name := "B", deployments := ["E"] }]

/-- A unit that always raises and leaves no committed work. -/
def failUnit : String → DB → URes := fun _ d => URes.fail d

/-- A unit that always succeeds without changing anything. -/
def okUnit : String → DB → URes := fun _ d => URes.ok d

/-- A host step that records its execution by appending an image row. -/
def markStep : DB → URes :=
  fun d => URes.ok { d with images := d.images ++ [{ id := "mark", tag := "ran" }] }

/-- db1 after a failed snapshot fetch: host marked down, containers gone. -/
def db1Down : DB :=
  { hosts := [{ hostname := "h1", port := 2376, status := "down" }],
    containers := [], images := [] }

/-! ## Helper lemmas -/

theorem DB.ext2 (a b : DB) (h1 : a.hosts = b.hosts) (h2 : a.containers = b.containers)
    (h3 : a.images = b.images) : a = b := by
  cases a; cases b; simp_all

theorem idsOf_nodup_inj {l : List Container} (h : (idsOf l).Nodup) :
    ∀ x ∈ l, ∀ y ∈ l, x.id = y.id → x = y :=
  fun x hx y hy hxy => List.inj_on_of_nodup_map h hx hy hxy

theorem find?_id_map (g : Container → Container) (hg : ∀ x, (g x).id = x.id)
    (l : List Container) (z : String) :
    (l.map g).find? (fun c => c.id == z) = (l.find? (fun c => c.id == z)).map g := by
  rw [List.find?_map]
  have : ((fun c => c.id == z) ∘ g) = (fun c : Container => c.id == z) := by
    funext x
    simp [Function.comp, hg x]
  rw [this]

theorem find?_newC_map (g : ContainerInfo → Container) (hg : ∀ x, (g x).id = x.id)
    (l : List ContainerInfo) (z : String) :
    (l.map g).find? (fun c => c.id == z) = (l.find? (fun i => i.id == z)).map g := by
  rw [List.find?_map]
  have : ((fun c => c.id == z) ∘ g) = (fun i : ContainerInfo => i.id == z) := by
    funext x
    simp [Function.comp, hg x]
  rw [this]

theorem mem_of_contains {t : List String} {a : String} (h : t.contains a = true) : a ∈ t :=
  List.elem_iff.mp h

theorem not_mem_of_contains_false {t : List String} {a : String} (h : t.contains a = false) :
    a ∉ t := by
  simp [List.contains] at h
  exact h

theorem find?_filter_not_contains (l : List Container) (t : List String) (z : String) :
    (l.filter (fun c => !(t.contains c.id))).find? (fun c => c.id == z)
      = if t.contains z then none else l.find? (fun c => c.id == z) := by
  induction l with
  | nil => cases h : t.contains z <;> simp [h]
  | cons c l ih =>
    by_cases hcz : (c.id == z) = true
    · have hze : c.id = z := eq_of_beq hcz
      by_cases hct : t.contains c.id = true
      · have hz : t.contains z = true := hze ▸ hct
        rw [List.filter_cons_of_neg (by simp [mem_of_contains hct]), ih, hz]
        simp
      · have hct' : t.contains c.id = false := by simpa using hct
        have hz : t.contains z = false := hze ▸ hct'
        rw [List.filter_cons_of_pos (by simp [not_mem_of_contains_false hct']),
          List.find?_cons_of_pos (p := fun x : Container => x.id == z) _ hcz, hz,
          List.find?_cons_of_pos (p := fun x : Container => x.id == z) _ hcz]
        simp
    · have hcz' : (c.id == z) = false := by simpa using hcz
      by_cases hct : t.contains c.id = true
      · rw [List.filter_cons_of_neg (by simp [mem_of_contains hct]), ih,
          List.find?_cons_of_neg (p := fun x : Container => x.id == z) _ (by simp [hcz'])]
      · have hct' : t.contains c.id = false := by simpa using hct
        rw [List.filter_cons_of_pos (by simp [not_mem_of_contains_false hct']),
          List.find?_cons_of_neg (p := fun x : Container => x.id == z) _ (by simp [hcz']),
          List.find?_cons_of_neg (p := fun x : Container => x.id == z) _ (by simp [hcz']), ih]

theorem processInfo_hosts (pt : String → Int) (hid : String) (db : DB) (info : ContainerInfo) :
    (processInfo pt hid db info).hosts = db.hosts := by
  unfold processInfo
  cases Container.get db info.id <;> rfl

theorem processInfo_images (pt : String → Int) (hid : String) (db : DB) (info : ContainerInfo) :
    (processInfo pt hid db info).images = db.images := by
  unfold processInfo
  cases Container.get db info.id <;> rfl

theorem foldl_processInfo_hosts (pt : String → Int) (hid : String) :
    ∀ (infos : List ContainerInfo) (db : DB),
      (infos.foldl (processInfo pt hid) db).hosts = db.hosts := by
  intro infos
  induction infos with
  | nil => intro db; rfl
  | cons i rest ih =>
    intro db
    rw [List.foldl_cons, ih, processInfo_hosts]

theorem foldl_processInfo_images (pt : String → Int) (hid : String) :
    ∀ (infos : List ContainerInfo) (db : DB),
      (infos.foldl (processInfo pt hid) db).images = db.images := by
  intro infos
  induction infos with
  | nil => intro db; rfl
  | cons i rest ih =>
    intro db
    rw [List.foldl_cons, ih, processInfo_images]

theorem newContainer_id (pt : String → Int) (hid : String) (db : DB) (info : ContainerInfo) :
    (newContainer pt hid db info).id = info.id := rfl

theorem applyInfo_id (pt : String → Int) (c : Container) (info : ContainerInfo) :
    (applyInfo pt c info).id = c.id := rfl

theorem newContainer_eq_of_images (pt : String → Int) (hid : String) (db db2 : DB)
    (h : db2.images = db.images) (info : ContainerInfo) :
    newContainer pt hid db2 info = newContainer pt hid db info := by
  unfold newContainer Image.get
  rw [h]

theorem idsOf_map_of_id_preserved (g : Container → Container) (hg : ∀ x, (g x).id = x.id)
    (l : List Container) : idsOf (l.map g) = idsOf l := by
  unfold idsOf
  rw [List.map_map]
  exact List.map_congr_left (fun x _ => hg x)

theorem updOf_nil (pt : String → Int) : updOf pt [] = fun c => c := rfl

theorem updOf_cons_of_pos (pt : String → Int) (i : ContainerInfo) (rest : List ContainerInfo)
    (c : Container) (h : (i.id == c.id) = true) : updOf pt (i :: rest) c = applyInfo pt c i := by
  unfold updOf
  rw [List.find?_cons_of_pos (p := fun k : ContainerInfo => k.id == c.id) _ h]

theorem updOf_cons_of_neg (pt : String → Int) (i : ContainerInfo) (rest : List ContainerInfo)
    (c : Container) (h : (i.id == c.id) = false) : updOf pt (i :: rest) c = updOf pt rest c := by
  unfold updOf
  rw [List.find?_cons_of_neg (p := fun k : ContainerInfo => k.id == c.id) _ (by simp [h])]

theorem updOf_of_not_mem (pt : String → Int) (infos : List ContainerInfo) (c : Container)
    (h : c.id ∉ infoIds infos) : updOf pt infos c = c := by
  unfold updOf
  have hn : infos.find? (fun k => k.id == c.id) = none := by
    apply List.find?_eq_none.mpr
    intro k hk hbeq
    exact h (by rw [← eq_of_beq hbeq]; exact List.mem_map_of_mem ContainerInfo.id hk)
  rw [hn]

theorem not_mem_ids_of_get_none {db : DB} {z : String} (h : Container.get db z = none) :
    z ∉ idsOf db.containers := by
  intro hm
  obtain ⟨c, hc, hcz⟩ := List.mem_map.mp hm
  have := List.find?_eq_none.mp h c hc
  simp [hcz] at this

theorem foldl_processInfo_containers (pt : String → Int) (hid : String) :
    ∀ (infos : List ContainerInfo) (db : DB),
      (idsOf db.containers).Nodup → (infoIds infos).Nodup →
      (infos.foldl (processInfo pt hid) db).containers
        = db.containers.map (updOf pt infos)
          ++ (infos.filter (freshIn db)).map (newContainer pt hid db) := by
  intro infos
  induction infos with
  | nil =>
    intro db _ _
    rw [List.foldl_nil, updOf_nil, List.filter_nil, List.map_nil, List.append_nil]
    exact (List.map_id' db.containers).symm
  | cons i rest ih =>
    intro db h1 h2
    have h2c : i.id ∉ List.map ContainerInfo.id rest ∧ (List.map ContainerInfo.id rest).Nodup := by
      have h := h2
      simp only [infoIds, List.map_cons, List.nodup_cons] at h
      exact h
    have hii : i.id ∉ infoIds rest := h2c.1
    have h2' : (infoIds rest).Nodup := h2c.2
    rw [List.foldl_cons]
    cases hget : Container.get db i.id with
    | some c =>
      have hget' : db.containers.find? (fun x => x.id == i.id) = some c := hget
      have hcmem : c ∈ db.containers := List.mem_of_find?_eq_some hget'
      have hpc : ((fun x : Container => x.id == i.id) c) = true :=
        List.find?_some (p := fun x : Container => x.id == i.id) hget'
      have hcid : c.id = i.id := eq_of_beq hpc
      have hg_id : ∀ x : Container,
          ((fun x => if x.id == i.id then applyInfo pt x i else x) x).id = x.id := by
        intro x
        by_cases hxi : (x.id == i.id) = true
        · simp [hxi, applyInfo_id, eq_of_beq hxi]
        · simp [hxi]
      have hstep : (processInfo pt hid db i).containers
          = db.containers.map (fun x => if x.id == i.id then applyInfo pt x i else x) := by
        unfold processInfo
        rw [hget]
        show db.containers.map (fun x => if x.id == (applyInfo pt c i).id then applyInfo pt c i else x) = _
        simp only [applyInfo_id, hcid]
        apply List.map_congr_left
        intro x hx
        by_cases hxi : (x.id == i.id) = true
        · have hxc : x = c := idsOf_nodup_inj h1 x hx c hcmem ((eq_of_beq hxi).trans hcid.symm)
          rw [if_pos hxi, if_pos hxi, hxc]
        · have hxi' : (x.id == i.id) = false := by simpa using hxi
          rw [if_neg (by simp [hxi']), if_neg (by simp [hxi'])]
      have hids : idsOf (processInfo pt hid db i).containers = idsOf db.containers := by
        rw [hstep]
        exact idsOf_map_of_id_preserved _ hg_id db.containers
      have hget_pres : ∀ z, Container.get (processInfo pt hid db i) z
          = (Container.get db z).map (fun x => if x.id == i.id then applyInfo pt x i else x) := by
        intro z
        show (processInfo pt hid db i).containers.find? (fun c => c.id == z) = _
        rw [hstep]
        exact find?_id_map _ hg_id db.containers z
      rw [ih (processInfo pt hid db i) (by rw [hids]; exact h1) h2']
      have himg : (processInfo pt hid db i).images = db.images := processInfo_images pt hid db i
      have e1 : (processInfo pt hid db i).containers.map (updOf pt rest)
          = db.containers.map (updOf pt (i :: rest)) := by
        rw [hstep, List.map_map]
        apply List.map_congr_left
        intro x hx
        show updOf pt rest (if x.id == i.id then applyInfo pt x i else x) = updOf pt (i :: rest) x
        by_cases hxi : (x.id == i.id) = true
        · rw [if_pos hxi, updOf_cons_of_pos pt i rest x (by simpa [BEq.comm] using hxi)]
          apply updOf_of_not_mem
          rw [applyInfo_id, eq_of_beq hxi]
          exact hii
        · have hxi' : (x.id == i.id) = false := by simpa using hxi
          rw [if_neg (by simp [hxi']), updOf_cons_of_neg pt i rest x (by simpa [BEq.comm] using hxi')]
      have e2 : rest.filter (freshIn (processInfo pt hid db i)) = rest.filter (freshIn db) := by
        apply List.filter_congr
        intro k _
        unfold freshIn
        rw [hget_pres k.id]
        cases Container.get db k.id <;> rfl
      have e3 : (rest.filter (freshIn db)).map (newContainer pt hid (processInfo pt hid db i))
          = (rest.filter (freshIn db)).map (newContainer pt hid db) :=
        List.map_congr_left (fun k _ => newContainer_eq_of_images pt hid db _ himg k)
      rw [e1, e2, e3]
      have e4 : (i :: rest).filter (freshIn db) = rest.filter (freshIn db) := by
        apply List.filter_cons_of_neg
        simp [freshIn, hget]
      rw [e4]
    | none =>
      have hfresh : i.id ∉ idsOf db.containers := not_mem_ids_of_get_none hget
      have hstep : processInfo pt hid db i = db.addContainer (newContainer pt hid db i) := by
        unfold processInfo
        rw [hget]
      have hids : idsOf (processInfo pt hid db i).containers
          = idsOf db.containers ++ [i.id] := by
        rw [hstep]
        show idsOf (db.containers ++ [newContainer pt hid db i]) = _
        unfold idsOf
        rw [List.map_append]
        rfl
      have hnd : (idsOf (processInfo pt hid db i).containers).Nodup := by
        rw [hids]
        exact List.Nodup.append h1 (List.nodup_singleton _)
          (List.disjoint_left.mpr (fun a ha hb => by
            rw [List.mem_singleton.mp hb] at ha
            exact hfresh ha))
      rw [ih (processInfo pt hid db i) hnd h2']
      have himg : (processInfo pt hid db i).images = db.images := processInfo_images pt hid db i
      have hcont : (processInfo pt hid db i).containers
          = db.containers ++ [newContainer pt hid db i] := by rw [hstep]; rfl
      have hget_pres : ∀ z, z ≠ i.id →
          Container.get (processInfo pt hid db i) z = Container.get db z := by
        intro z hz
        show (processInfo pt hid db i).containers.find? (fun c => c.id == z) = _
        rw [hcont, List.find?_append]
        have : ([newContainer pt hid db i].find? (fun c => c.id == z)) = none := by
          apply List.find?_eq_none.mpr
          intro x hx
          rw [List.mem_singleton.mp hx]
          intro hbeq
          exact hz (eq_of_beq hbeq).symm
        rw [this, Option.or_none]
        rfl
      have e1 : (processInfo pt hid db i).containers.map (updOf pt rest)
          = db.containers.map (updOf pt (i :: rest)) ++ [newContainer pt hid db i] := by
        rw [hcont, List.map_append]
        have eA : db.containers.map (updOf pt rest) = db.containers.map (updOf pt (i :: rest)) := by
          apply List.map_congr_left
          intro x hx
          have hxi : (i.id == x.id) = false := by
            by_contra hc
            have : (i.id == x.id) = true := by
              cases h : (i.id == x.id)
              · exact absurd h hc
              · rfl
            exact hfresh (by rw [eq_of_beq this]; exact List.mem_map_of_mem Container.id hx)
          rw [updOf_cons_of_neg pt i rest x hxi]
        have eB : [newContainer pt hid db i].map (updOf pt rest) = [newContainer pt hid db i] := by
          show [updOf pt rest (newContainer pt hid db i)] = _
          rw [updOf_of_not_mem pt rest _ (by rw [newContainer_id]; exact hii)]
        rw [eA, eB]
      have e2 : rest.filter (freshIn (processInfo pt hid db i)) = rest.filter (freshIn db) := by
        apply List.filter_congr
        intro k hk
        unfold freshIn
        have hkid : k.id ≠ i.id := by
          intro h
          exact hii (by rw [← h]; exact List.mem_map_of_mem ContainerInfo.id hk)
        rw [hget_pres k.id hkid]
      have e3 : (rest.filter (freshIn db)).map (newContainer pt hid (processInfo pt hid db i))
          = (rest.filter (freshIn db)).map (newContainer pt hid db) :=
        List.map_congr_left (fun k _ => newContainer_eq_of_images pt hid db _ himg k)
      rw [e1, e2, e3]
      have e4 : (i :: rest).filter (freshIn db) = i :: rest.filter (freshIn db) := by
        apply List.filter_cons_of_pos
        simp [freshIn, hget]
      rw [e4, List.map_cons, List.append_assoc, List.singleton_append]

theorem updOf_id (pt : String → Int) (infos : List ContainerInfo) :
    ∀ x : Container, (updOf pt infos x).id = x.id := by
  intro x
  unfold updOf
  cases infos.find? (fun i => i.id == x.id) <;> rfl

theorem update_host_ok_containers (pt : String → Int) (db : DB) (hid : String)
    (infos : List ContainerInfo) :
    (update_host_containers pt db hid (Except.ok infos)).containers
      = (infos.foldl (processInfo pt hid) db).containers.filter
          (fun c => !((staleIds db hid infos).contains c.id)) := rfl

theorem update_host_ok_hosts (pt : String → Int) (db : DB) (hid : String)
    (infos : List ContainerInfo) :
    (update_host_containers pt db hid (Except.ok infos)).hosts = db.hosts := by
  show (infos.foldl (processInfo pt hid) db).hosts = db.hosts
  exact foldl_processInfo_hosts pt hid infos db

theorem update_host_ok_images (pt : String → Int) (db : DB) (hid : String)
    (infos : List ContainerInfo) :
    (update_host_containers pt db hid (Except.ok infos)).images = db.images := by
  show (infos.foldl (processInfo pt hid) db).images = db.images
  exact foldl_processInfo_images pt hid infos db

theorem get_update_host_ok (pt : String → Int) (hid : String) (infos : List ContainerInfo)
    (db : DB) (z : String) (h1 : (idsOf db.containers).Nodup) (h2 : (infoIds infos).Nodup) :
    Container.get (update_host_containers pt db hid (Except.ok infos)) z
      = if (staleIds db hid infos).contains z then none
        else
          match db.containers.find? (fun c => c.id == z) with
          | some c =>
            match infos.find? (fun i => i.id == z) with
            | some i => some (applyInfo pt c i)
            | none => some c
          | none =>
            ((infos.filter (freshIn db)).find? (fun i => i.id == z)).map
              (newContainer pt hid db) := by
  show (update_host_containers pt db hid (Except.ok infos)).containers.find?
      (fun c => c.id == z) = _
  rw [update_host_ok_containers, foldl_processInfo_containers pt hid infos db h1 h2,
    find?_filter_not_contains]
  cases hst : (staleIds db hid infos).contains z with
  | true => simp
  | false =>
    simp only [Bool.false_eq_true, if_false]
    rw [List.find?_append, find?_id_map (updOf pt infos) (updOf_id pt infos) db.containers z]
    cases hdz : db.containers.find? (fun c => c.id == z) with
    | some c =>
      have hcz : c.id = z :=
        eq_of_beq (List.find?_some (p := fun x : Container => x.id == z) hdz)
      show some (updOf pt infos c) = _
      unfold updOf
      rw [hcz]
      cases List.find? (fun i => i.id == z) infos <;> rfl
    | none =>
      show Option.or none _ = _
      rw [Option.none_or]
      exact find?_newC_map (newContainer pt hid db) (fun x => rfl) (infos.filter (freshIn db)) z

theorem idsOf_append (l1 l2 : List Container) : idsOf (l1 ++ l2) = idsOf l1 ++ idsOf l2 :=
  List.map_append Container.id l1 l2

theorem idsOf_newC_map (pt : String → Int) (hid : String) (db : DB)
    (l : List ContainerInfo) : idsOf (l.map (newContainer pt hid db)) = infoIds l := by
  unfold idsOf infoIds
  rw [List.map_map]
  exact List.map_congr_left (fun x _ => rfl)

theorem update_host_ok_nodup (pt : String → Int) (db : DB) (hid : String)
    (infos : List ContainerInfo) (h1 : (idsOf db.containers).Nodup)
    (h2 : (infoIds infos).Nodup) :
    (idsOf (update_host_containers pt db hid (Except.ok infos)).containers).Nodup := by
  rw [update_host_ok_containers, foldl_processInfo_containers pt hid infos db h1 h2]
  have hsub : (idsOf (((db.containers.map (updOf pt infos))
      ++ (infos.filter (freshIn db)).map (newContainer pt hid db)).filter
        (fun c => !((staleIds db hid infos).contains c.id)))).Sublist
      (idsOf ((db.containers.map (updOf pt infos))
        ++ (infos.filter (freshIn db)).map (newContainer pt hid db))) :=
    (List.filter_sublist _).map Container.id
  apply List.Nodup.sublist hsub
  rw [idsOf_append, idsOf_map_of_id_preserved (updOf pt infos) (updOf_id pt infos) db.containers,
    idsOf_newC_map]
  apply List.Nodup.append h1
  · exact List.Nodup.sublist ((List.filter_sublist infos).map ContainerInfo.id) h2
  · apply List.disjoint_left.mpr
    intro a ha hb
    obtain ⟨i, hi, hiz⟩ := List.mem_map.mp hb
    have hfr : freshIn db i = true := List.of_mem_filter hi
    have : i.id ∉ idsOf db.containers := by
      apply not_mem_ids_of_get_none
      unfold freshIn at hfr
      cases hg : Container.get db i.id
      · rfl
      · rw [hg] at hfr
        cases hfr
    rw [← hiz] at ha
    exact this ha

theorem applyInfo_applyInfo (pt : String → Int) (c : Container) (i : ContainerInfo) :
    applyInfo pt (applyInfo pt c i) i = applyInfo pt c i := rfl

theorem applyInfo_newContainer (pt : String → Int) (hid : String) (db : DB)
    (i : ContainerInfo) :
    applyInfo pt (newContainer pt hid db i) i = newContainer pt hid db i := rfl

theorem updOf_host (pt : String → Int) (infos : List ContainerInfo) :
    ∀ x : Container, (updOf pt infos x).host = x.host := by
  intro x
  unfold updOf
  cases infos.find? (fun i => i.id == x.id) <;> rfl

theorem find?_self_of_nodup {infos : List ContainerInfo} {i : ContainerInfo}
    (hnd : (infoIds infos).Nodup) (hi : i ∈ infos) :
    infos.find? (fun k => k.id == i.id) = some i := by
  induction infos with
  | nil => cases hi
  | cons a rest ih =>
    have h2c : a.id ∉ List.map ContainerInfo.id rest ∧ (List.map ContainerInfo.id rest).Nodup := by
      have h := hnd
      simp only [infoIds, List.map_cons, List.nodup_cons] at h
      exact h
    rcases List.mem_cons.mp hi with heq | hmem
    · subst heq
      exact List.find?_cons_of_pos (p := fun k : ContainerInfo => k.id == i.id) _ (by simp)
    · have hne : (a.id == i.id) = false := by
        by_cases hc : (a.id == i.id) = true
        · exact absurd (by rw [eq_of_beq hc]; exact List.mem_map_of_mem ContainerInfo.id hmem)
            h2c.1
        · cases h : (a.id == i.id)
          · rfl
          · exact absurd h hc
      rw [List.find?_cons_of_neg (p := fun k : ContainerInfo => k.id == i.id) _ (by simp [hne])]
      exact ih h2c.2 hmem

theorem updOf_updOf (pt : String → Int) (infos : List ContainerInfo) (c : Container) :
    updOf pt infos (updOf pt infos c) = updOf pt infos c := by
  unfold updOf
  cases hf : infos.find? (fun k => k.id == c.id) with
  | none => rw [hf]
  | some i =>
    simp only [applyInfo_id]
    rw [hf]
    exact applyInfo_applyInfo pt c i

theorem updOf_newC (pt : String → Int) (hid : String) (db : DB) {infos : List ContainerInfo}
    {i : ContainerInfo} (hnd : (infoIds infos).Nodup) (hi : i ∈ infos) :
    updOf pt infos (newContainer pt hid db i) = newContainer pt hid db i := by
  unfold updOf
  simp only [newContainer_id]
  rw [find?_self_of_nodup hnd hi]
  exact applyInfo_newContainer pt hid db i

theorem mem_staleIds {db : DB} {hid : String} {infos : List ContainerInfo} {z : String}
    (hmem : z ∈ (db.hostContainers hid).map Container.id) (hnot : z ∉ infoIds infos) :
    z ∈ staleIds db hid infos := by
  unfold staleIds
  apply List.mem_filter.mpr
  refine ⟨hmem, ?_⟩
  have : (infos.map ContainerInfo.id).contains z = false := by
    cases hc : (infos.map ContainerInfo.id).contains z
    · rfl
    · exact absurd (mem_of_contains hc) hnot
  rw [this]
  rfl

theorem not_mem_infoIds_of_mem_staleIds {db : DB} {hid : String} {infos : List ContainerInfo}
    {z : String} (h : z ∈ staleIds db hid infos) : z ∉ infoIds infos := by
  unfold staleIds at h
  have := (List.mem_filter.mp h).2
  intro hmem
  have hc : (infos.map ContainerInfo.id).contains z = true := List.elem_iff.mpr hmem
  rw [hc] at this
  simp at this

theorem contains_staleIds_false_of_mem {db : DB} {hid : String} {infos : List ContainerInfo}
    {z : String} (hmem : z ∈ infoIds infos) :
    (staleIds db hid infos).contains z = false := by
  cases hc : (staleIds db hid infos).contains z
  · rfl
  · exact absurd hmem (not_mem_infoIds_of_mem_staleIds (mem_of_contains hc))

theorem update_host_present (pt : String → Int) (db : DB) (hid : String)
    (infos : List ContainerInfo) (h1 : (idsOf db.containers).Nodup)
    (h2 : (infoIds infos).Nodup) {i : ContainerInfo} (hi : i ∈ infos) :
    (Container.get (update_host_containers pt db hid (Except.ok infos)) i.id).isSome = true := by
  rw [get_update_host_ok pt hid infos db i.id h1 h2]
  have hst : (staleIds db hid infos).contains i.id = false :=
    contains_staleIds_false_of_mem (List.mem_map_of_mem ContainerInfo.id hi)
  rw [if_neg (by rw [hst]; exact Bool.false_ne_true)]
  cases hdz : db.containers.find? (fun c => c.id == i.id) with
  | some c =>
    rw [find?_self_of_nodup h2 hi]
    rfl
  | none =>
    have hfr : freshIn db i = true := by
      unfold freshIn Container.get
      rw [hdz]
      rfl
    have hmemf : i ∈ infos.filter (freshIn db) := List.mem_filter.mpr ⟨hi, hfr⟩
    have hndf : (infoIds (infos.filter (freshIn db))).Nodup :=
      List.Nodup.sublist ((List.filter_sublist infos).map ContainerInfo.id) h2
    rw [find?_self_of_nodup hndf hmemf]
    rfl

theorem update_host_covers (pt : String → Int) (db : DB) (hid : String)
    (infos : List ContainerInfo) (h1 : (idsOf db.containers).Nodup)
    (h2 : (infoIds infos).Nodup) :
    ∀ c ∈ (update_host_containers pt db hid (Except.ok infos)).containers,
      c.host = hid → c.id ∈ infoIds infos := by
  rw [update_host_ok_containers, foldl_processInfo_containers pt hid infos db h1 h2]
  intro c hc hh
  have hc1 := List.mem_of_mem_filter hc
  have hkeep : (!((staleIds db hid infos).contains c.id)) = true :=
    List.of_mem_filter (p := fun x : Container => !((staleIds db hid infos).contains x.id)) hc
  rcases List.mem_append.mp hc1 with hmap | hnews
  · obtain ⟨x, hx, hxc⟩ := List.mem_map.mp hmap
    by_contra hnot
    have hidx : c.id = x.id := by rw [← hxc]; exact updOf_id pt infos x
    have hhx : x.host = hid := by rw [← updOf_host pt infos x, hxc]; exact hh
    have hmemh : x ∈ db.hostContainers hid :=
      List.mem_filter.mpr ⟨hx, by simp [DB.hostContainers, hhx]⟩
    have hmem2 : c.id ∈ (db.hostContainers hid).map Container.id := by
      rw [hidx]
      exact List.mem_map_of_mem Container.id hmemh
    have hstale : c.id ∈ staleIds db hid infos := mem_staleIds hmem2 hnot
    have hcontains : (staleIds db hid infos).contains c.id = true := List.elem_iff.mpr hstale
    rw [hcontains] at hkeep
    simp at hkeep
  · obtain ⟨i, hif, hic⟩ := List.mem_map.mp hnews
    have : c.id = i.id := by rw [← hic]; rfl
    rw [this]
    exact List.mem_map_of_mem ContainerInfo.id (List.mem_of_mem_filter hif)

theorem staleIds_update_nil (pt : String → Int) (db : DB) (hid : String)
    (infos : List ContainerInfo) (h1 : (idsOf db.containers).Nodup)
    (h2 : (infoIds infos).Nodup) :
    staleIds (update_host_containers pt db hid (Except.ok infos)) hid infos = [] := by
  unfold staleIds
  apply List.filter_eq_nil_iff.mpr
  intro z hz
  obtain ⟨c, hc, hcz⟩ := List.mem_map.mp hz
  have hcmem : c ∈ (update_host_containers pt db hid (Except.ok infos)).containers :=
    List.mem_of_mem_filter hc
  have hc2 : c ∈ (update_host_containers pt db hid (Except.ok infos)).containers.filter
      (fun x => x.host == hid) := hc
  have hchost : c.host = hid :=
    eq_of_beq (List.of_mem_filter (p := fun x : Container => x.host == hid) hc2)
  have hcin : c.id ∈ infoIds infos := update_host_covers pt db hid infos h1 h2 c hcmem hchost
  rw [← hcz]
  have hct : (infos.map ContainerInfo.id).contains c.id = true := List.elem_iff.mpr hcin
  rw [hct]
  simp

theorem fresh_update_nil (pt : String → Int) (db : DB) (hid : String)
    (infos : List ContainerInfo) (h1 : (idsOf db.containers).Nodup)
    (h2 : (infoIds infos).Nodup) :
    infos.filter (freshIn (update_host_containers pt db hid (Except.ok infos))) = [] := by
  apply List.filter_eq_nil_iff.mpr
  intro i hi
  have hsome := update_host_present pt db hid infos h1 h2 hi
  unfold freshIn
  cases hg : Container.get (update_host_containers pt db hid (Except.ok infos)) i.id with
  | none => rw [hg] at hsome; cases hsome
  | some c => simp

theorem updOf_fixed_on_update (pt : String → Int) (db : DB) (hid : String)
    (infos : List ContainerInfo) (h1 : (idsOf db.containers).Nodup)
    (h2 : (infoIds infos).Nodup) :
    ∀ c ∈ (update_host_containers pt db hid (Except.ok infos)).containers,
      updOf pt infos c = c := by
  rw [update_host_ok_containers, foldl_processInfo_containers pt hid infos db h1 h2]
  intro c hc
  have hc1 := List.mem_of_mem_filter hc
  rcases List.mem_append.mp hc1 with hmap | hnews
  · obtain ⟨x, hx, hxc⟩ := List.mem_map.mp hmap
    rw [← hxc]
    exact updOf_updOf pt infos x
  · obtain ⟨i, hif, hic⟩ := List.mem_map.mp hnews
    rw [← hic]
    exact updOf_newC pt hid db h2 (List.mem_of_mem_filter hif)

theorem update_host_idem (pt : String → Int) (db : DB) (hid : String)
    (infos : List ContainerInfo) (h1 : (idsOf db.containers).Nodup)
    (h2 : (infoIds infos).Nodup) :
    update_host_containers pt (update_host_containers pt db hid (Except.ok infos)) hid
        (Except.ok infos)
      = update_host_containers pt db hid (Except.ok infos) := by
  have h1R : (idsOf (update_host_containers pt db hid (Except.ok infos)).containers).Nodup :=
    update_host_ok_nodup pt db hid infos h1 h2
  apply DB.ext2
  · rw [update_host_ok_hosts]
  · rw [update_host_ok_containers pt (update_host_containers pt db hid (Except.ok infos)) hid
      infos,
      foldl_processInfo_containers pt hid infos _ h1R h2,
      fresh_update_nil pt db hid infos h1 h2, List.map_nil, List.append_nil,
      staleIds_update_nil pt db hid infos h1 h2]
    have hfil : ((update_host_containers pt db hid (Except.ok infos)).containers.map
        (updOf pt infos)).filter (fun c => !(([] : List String).contains c.id))
        = (update_host_containers pt db hid (Except.ok infos)).containers.map
            (updOf pt infos) := by
      have hcg : ((update_host_containers pt db hid (Except.ok infos)).containers.map
          (updOf pt infos)).filter (fun c => !(([] : List String).contains c.id))
          = ((update_host_containers pt db hid (Except.ok infos)).containers.map
              (updOf pt infos)).filter (fun c => true) :=
        List.filter_congr (fun a _ => rfl)
      rw [hcg, List.filter_true]
    rw [hfil]
    have hmap : (update_host_containers pt db hid (Except.ok infos)).containers.map
        (updOf pt infos)
        = (update_host_containers pt db hid (Except.ok infos)).containers.map (fun c => c) :=
      List.map_congr_left (updOf_fixed_on_update pt db hid infos h1 h2)
    rw [hmap, List.map_id']
  · rw [update_host_ok_images]

/-! ## Agreement of the raising reconciler with the pure one -/

theorem processInfoE_ok (pt : String → Int) (hid : String) (db : DB) (info : ContainerInfo) :
    processInfoE (fun s => Except.ok (pt s)) hid db info
      = Except.ok (processInfo pt hid db info) := by
  unfold processInfoE processInfo
  cases Container.get db info.id <;> rfl

theorem foldInfosE_ok (pt : String → Int) (hid : String) :
    ∀ (infos : List ContainerInfo) (db : DB),
      foldInfosE (fun s => Except.ok (pt s)) hid infos db
        = Except.ok (infos.foldl (processInfo pt hid) db) := by
  intro infos
  induction infos with
  | nil => intro db; rfl
  | cons i rest ih =>
    intro db
    show (match processInfoE (fun s => Except.ok (pt s)) hid db i with
      | Except.error e => Except.error e
      | Except.ok db2 => foldInfosE (fun s => Except.ok (pt s)) hid rest db2) = _
    rw [processInfoE_ok pt hid db i]
    exact ih (processInfo pt hid db i)

theorem update_host_containersE_ok (pt : String → Int) (db : DB) (hid : String)
    (fetch : Except Unit (List ContainerInfo)) :
    update_host_containersE (fun s => Except.ok (pt s)) db hid fetch
      = URes.ok (update_host_containers pt db hid fetch) := by
  cases fetch with
  | ok infos =>
    show (match foldInfosE (fun s => Except.ok (pt s)) hid infos db with
      | Except.error _ => URes.fail db
      | Except.ok db2 =>
        URes.ok (deleteStale db2
          (((db.hostContainers hid).map Container.id).filter
            (fun i => !((infos.map ContainerInfo.id).contains i))))) = _
    rw [foldInfosE_ok pt hid infos db]
    rfl
  | error e => rfl

theorem hostLoop_ok (pt : String → Int) (fetchf : String → Except Unit (List ContainerInfo)) :
    ∀ (hs : List String) (db : DB),
      hostLoop (fun h d => update_host_containersE (fun s => Except.ok (pt s)) d h (fetchf h))
          hs db
        = URes.ok (hs.foldl (fun d h => update_host_containers pt d h (fetchf h)) db) := by
  intro hs
  induction hs with
  | nil => intro db; rfl
  | cons h t ih =>
    intro db
    show (match update_host_containersE (fun s => Except.ok (pt s)) db h (fetchf h) with
      | URes.ok d2 =>
        hostLoop (fun h d => update_host_containersE (fun s => Except.ok (pt s)) d h (fetchf h))
          t d2
      | URes.fail d2 => URes.fail d2) = _
    rw [update_host_containersE_ok pt db h (fetchf h)]
    exact ih (update_host_containers pt db h (fetchf h))

/-! ## Orchestration helpers -/

theorem tryUnit_fail_all (u : DB → URes) (h : ∀ d, u d = URes.fail d) (d : DB) :
    tryUnit u d = d := by
  unfold tryUnit
  rw [h d]

theorem depFold_override (depSync : String → DB → URes) (D : String)
    (hD : ∀ d, depSync D d = URes.fail d) :
    ∀ (l : List String) (db : DB),
      l.foldl (fun d dep => tryUnit (depSync dep) d) db
        = l.foldl (fun d dep =>
            tryUnit (if dep = D then fun x => URes.ok x else depSync dep) d) db := by
  intro l
  induction l with
  | nil => intro db; rfl
  | cons dep t ih =>
    intro db
    rw [List.foldl_cons, List.foldl_cons, ih]
    congr 1
    by_cases h : dep = D
    · rw [h, if_pos rfl, tryUnit_fail_all (depSync D) hD db]
      rfl
    · rw [if_neg h]

theorem syncApp_override (appSync depSync : String → DB → URes) (A D : String)
    (hA : ∀ d, appSync A d = URes.fail d) (hD : ∀ d, depSync D d = URes.fail d)
    (a : AppRec) (db : DB) :
    syncApp appSync depSync a db
      = syncApp (fun n => if n = A then fun x => URes.ok x else appSync n)
          (fun n => if n = D then fun x => URes.ok x else depSync n) a db := by
  unfold syncApp
  rw [depFold_override depSync D hD]
  congr 1
  by_cases h : a.name = A
  · rw [h]
    show tryUnit (appSync A) db = tryUnit (if A = A then fun x => URes.ok x else appSync A) db
    rw [if_pos rfl, tryUnit_fail_all (appSync A) hA db]
    rfl
  · show tryUnit (appSync a.name) db
      = tryUnit (if a.name = A then fun x => URes.ok x else appSync a.name) db
    rw [if_neg h]

theorem appsFold_override (appSync depSync : String → DB → URes) (A D : String)
    (hA : ∀ d, appSync A d = URes.fail d) (hD : ∀ d, depSync D d = URes.fail d) :
    ∀ (apps : List AppRec) (db : DB),
      apps.foldl (fun d a => syncApp appSync depSync a d) db
        = apps.foldl (fun d a =>
            syncApp (fun n => if n = A then fun x => URes.ok x else appSync n)
              (fun n => if n = D then fun x => URes.ok x else depSync n) a d) db := by
  intro apps
  induction apps with
  | nil => intro db; rfl
  | cons a t ih =>
    intro db
    rw [List.foldl_cons, List.foldl_cons, ih, syncApp_override appSync depSync A D hA hD a db]

/-! ## Characterisation of the health-status loop -/

theorem depStatusStep_eq (dep : Deployment) (env : String → Nat → ReqOutcome)
    (acc : List Container × List String) (c : Container) :
    depStatusStep dep env acc c
      = if c.state == "running" then
          (acc.1 ++ [{ c with status := some (containerStatusOf dep env c) }],
           acc.2 ++ [statusUrl c.host dep])
        else (acc.1 ++ [{ c with status := some "down" }], acc.2) := by
  by_cases h : (c.state == "running") = true
  · unfold depStatusStep containerStatusOf
    rw [if_pos h, if_pos h, if_pos h]
  · unfold depStatusStep
    rw [if_neg h, if_neg h]

theorem depStatusFold (dep : Deployment) (env : String → Nat → ReqOutcome) :
    ∀ (cs : List Container) (a : List Container) (b : List String),
      cs.foldl (depStatusStep dep env) (a, b)
        = (a ++ cs.map (fun c => { c with status := some (containerStatusOf dep env c) }),
           b ++ (cs.filter (fun c => c.state == "running")).map
             (fun c => statusUrl c.host dep)) := by
  intro cs
  induction cs with
  | nil =>
    intro a b
    simp
  | cons c t ih =>
    intro a b
    rw [List.foldl_cons, depStatusStep_eq]
    by_cases h : (c.state == "running") = true
    · rw [if_pos h, ih,
        List.filter_cons_of_pos (p := fun x : Container => x.state == "running") h,
        List.map_cons, List.map_cons]
      simp
    · rw [if_neg h, ih,
        List.filter_cons_of_neg (p := fun x : Container => x.state == "running") h,
        List.map_cons]
      have hcs : containerStatusOf dep env c = "down" := by
        unfold containerStatusOf
        rw [if_neg h]
      rw [hcs]
      simp

theorem update_deployment_status_eq (dep : Deployment) (env : String → Nat → ReqOutcome)
    (cs : List Container) :
    update_deployment_status dep env cs
      = (cs.map (fun c => { c with status := some (containerStatusOf dep env c) }),
         (cs.filter (fun c => c.state == "running")).map (fun c => statusUrl c.host dep)) := by
  unfold update_deployment_status
  rw [depStatusFold dep env cs [] []]
  simp

/-! ## Lookup corollaries of the reconciler characterisation -/

theorem staleIds_sub (db : DB) (hid : String) (infos : List ContainerInfo) :
    ∀ z ∈ staleIds db hid infos, z ∈ idsOf db.containers := by
  intro z hz
  unfold staleIds at hz
  obtain ⟨c, hc, hcz⟩ := List.mem_map.mp (List.mem_of_mem_filter hz)
  rw [← hcz]
  exact List.mem_map_of_mem Container.id (List.mem_of_mem_filter hc)

theorem contains_staleIds_false_of_fresh {db : DB} {hid : String} {infos : List ContainerInfo}
    {z : String} (h : z ∉ idsOf db.containers) :
    (staleIds db hid infos).contains z = false := by
  cases hc : (staleIds db hid infos).contains z
  · rfl
  · exact absurd (staleIds_sub db hid infos z (mem_of_contains hc)) h

theorem find?_self_container {l : List Container} {c : Container}
    (hnd : (idsOf l).Nodup) (hc : c ∈ l) : l.find? (fun x => x.id == c.id) = some c := by
  induction l with
  | nil => cases hc
  | cons a rest ih =>
    have h2c : a.id ∉ List.map Container.id rest ∧ (List.map Container.id rest).Nodup := by
      have h := hnd
      simp only [idsOf, List.map_cons, List.nodup_cons] at h
      exact h
    rcases List.mem_cons.mp hc with heq | hmem
    · subst heq
      exact List.find?_cons_of_pos (p := fun x : Container => x.id == c.id) _ (by simp)
    · have hne : (a.id == c.id) = false := by
        by_cases hb : (a.id == c.id) = true
        · exact absurd (by rw [eq_of_beq hb]; exact List.mem_map_of_mem Container.id hmem) h2c.1
        · cases h : (a.id == c.id)
          · rfl
          · exact absurd h hb
      rw [List.find?_cons_of_neg (p := fun x : Container => x.id == c.id) _ (by simp [hne])]
      exact ih h2c.2 hmem

theorem get_update_of_present (pt : String → Int) (db : DB) (hid : String)
    (infos : List ContainerInfo) (i : ContainerInfo) (c : Container)
    (h1 : (idsOf db.containers).Nodup) (h2 : (infoIds infos).Nodup)
    (hi : i ∈ infos) (hc : c ∈ db.containers) (hcid : c.id = i.id) :
    Container.get (update_host_containers pt db hid (Except.ok infos)) i.id
      = some (applyInfo pt c i) := by
  rw [get_update_host_ok pt hid infos db i.id h1 h2]
  have hst : (staleIds db hid infos).contains i.id = false :=
    contains_staleIds_false_of_mem (hcid ▸ List.mem_map_of_mem ContainerInfo.id hi)
  rw [if_neg (by rw [hst]; exact Bool.false_ne_true)]
  have hfind : db.containers.find? (fun x => x.id == i.id) = some c := by
    have := find?_self_container h1 hc
    rw [hcid] at this
    exact this
  rw [hfind, find?_self_of_nodup h2 hi]

theorem get_update_of_fresh (pt : String → Int) (db : DB) (hid : String)
    (infos : List ContainerInfo) (i : ContainerInfo)
    (h1 : (idsOf db.containers).Nodup) (h2 : (infoIds infos).Nodup)
    (hi : i ∈ infos) (hfresh : Container.get db i.id = none) :
    Container.get (update_host_containers pt db hid (Except.ok infos)) i.id
      = some (newContainer pt hid db i) := by
  rw [get_update_host_ok pt hid infos db i.id h1 h2]
  have hst : (staleIds db hid infos).contains i.id = false :=
    contains_staleIds_false_of_fresh (not_mem_ids_of_get_none hfresh)
  rw [if_neg (by rw [hst]; exact Bool.false_ne_true)]
  have hfind : db.containers.find? (fun x => x.id == i.id) = none := hfresh
  rw [hfind]
  have hfr : freshIn db i = true := by
    unfold freshIn
    rw [hfresh]
    rfl
  have hmemf : i ∈ infos.filter (freshIn db) := List.mem_filter.mpr ⟨hi, hfr⟩
  have hndf : (infoIds (infos.filter (freshIn db))).Nodup :=
    List.Nodup.sublist ((List.filter_sublist infos).map ContainerInfo.id) h2
  rw [find?_self_of_nodup hndf hmemf]
  rfl

theorem get_update_of_stale (pt : String → Int) (db : DB) (hid : String)
    (infos : List ContainerInfo) (c : Container)
    (h1 : (idsOf db.containers).Nodup) (h2 : (infoIds infos).Nodup)
    (hc : c ∈ db.containers) (hhost : c.host = hid) (hnot : c.id ∉ infoIds infos) :
    Container.get (update_host_containers pt db hid (Except.ok infos)) c.id = none := by
  rw [get_update_host_ok pt hid infos db c.id h1 h2]
  have hmemh : c ∈ db.hostContainers hid :=
    List.mem_filter.mpr ⟨hc, by simp [hhost]⟩
  have hstale : c.id ∈ staleIds db hid infos :=
    mem_staleIds (List.mem_map_of_mem Container.id hmemh) hnot
  rw [if_pos (List.elem_iff.mpr hstale)]

/-! ## Claim theorems -/

/-- Claim C1 (code bug): when the snapshot fetch raises, the code marks
host h1 down and swallows the exception (the run completes normally,
second conjunct), but it does NOT leave the host's previously persisted
containers unchanged: the loop then runs over the empty default list,
so the deletion loop removes every previously persisted container of
the host.  Here db1 persists exactly `cont0` on h1, and after the
failing run the containers table is empty. -/
theorem C1_fetch_failure_deletes_containers :
    update_host_containers pt0 db1 "h1" (Except.error ()) = db1Down
    ∧ update_host_containersE ptE0 db1 "h1" (Except.error ()) = URes.ok db1Down := by
  constructor <;> rfl

/-- Claim C4 counterexample: with every attempt failing at request
level, `_check_app_status` executes 3 pauses of 5 seconds (the
`time.sleep(5)` also runs after the final attempt, before the raise),
so the pauses total 15 seconds — not at most 2 Times 5 = 10 seconds as
the claim states. -/
theorem C4_counterexample :
    check_app_status respFail 3
      = { result := CheckResult.raised (some "e3"), attempts := 3, sleeps := 3 }
    ∧ ¬((check_app_status respFail 3).sleeps * 5 ≤ 2 * 5) := by
  constructor
  · rfl
  · decide

/-- Claim C4 (amended): when the HTTP GET raises a request-level
failure on all attempts, exactly 3 attempts are made, the pauses
between and after attempts total 3 Times 5 seconds (so the total wait
is bounded by 3 Times 10 + 3 Times 5 seconds), the last failure's
exception is raised to the caller, and the caller
(`update_deployment_status`) then assigns the running container the
status "down". -/
theorem C4_retry_exhaustion (responses : Nat → ReqOutcome) (e1 e2 e3 : String)
    (h1 : responses 1 = ReqOutcome.exn e1) (h2 : responses 2 = ReqOutcome.exn e2)
    (h3 : responses 3 = ReqOutcome.exn e3) (dep : Deployment)
    (env : String → Nat → ReqOutcome) (c : Container)
    (hc : (c.state == "running") = true)
    (henv : env (statusUrl c.host dep) = responses) :
    check_app_status responses 3
      = { result := CheckResult.raised (some e3), attempts := 3, sleeps := 3 }
    ∧ containerStatusOf dep env c = "down" := by
  have hchk : check_app_status responses 3
      = { result := CheckResult.raised (some e3), attempts := 3, sleeps := 3 } := by
    simp [check_app_status, checkFrom, h1, h2, h3]
  refine ⟨hchk, ?_⟩
  unfold containerStatusOf
  rw [if_pos hc, henv, hchk]

/-- Witness for C4_retry_exhaustion at the concrete all-failing
responder `respFail` and the concrete running container `contRun`. -/
theorem C4_witness :
    check_app_status respFail 3
      = { result := CheckResult.raised (some "e3"), attempts := 3, sleeps := 3 }
    ∧ containerStatusOf depW envFail contRun = "down" :=
  C4_retry_exhaustion respFail "e1" "e2" "e3" rfl rfl rfl depW envFail contRun rfl rfl

/-- Claim C5: when attempts 1..k-1 raise at request level and attempt k
(within the 3-attempt budget) receives an HTTP response,
`_check_app_status` returns on attempt k without further requests or
sleeps: exactly k requests are issued and k-1 pauses occur; the result
is "up" for a success response and "down" otherwise.  In particular a
non-success response on the first attempt means exactly one request. -/
theorem C5_response_classified_immediately (responses : Nat → ReqOutcome) (k : Nat) (b : Bool)
    (hk1 : 1 ≤ k) (hk3 : k ≤ 3)
    (hexn : ∀ j, 1 ≤ j → j < k → ∃ e, responses j = ReqOutcome.exn e)
    (hresp : responses k = ReqOutcome.resp b) :
    check_app_status responses 3
      = { result := CheckResult.status (if b then "up" else "down"),
          attempts := k, sleeps := k - 1 } := by
  interval_cases k
  · simp [check_app_status, checkFrom, hresp]
  · obtain ⟨e1, h1⟩ := hexn 1 (by norm_num) (by norm_num)
    simp [check_app_status, checkFrom, h1, hresp]
  · obtain ⟨e1, h1⟩ := hexn 1 (by norm_num) (by norm_num)
    obtain ⟨e2, h2⟩ := hexn 2 (by norm_num) (by norm_num)
    simp [check_app_status, checkFrom, h1, h2, hresp]

/-- Witness for C5_response_classified_immediately: a non-success
response on the first attempt is probed exactly once and classified
"down" with no sleeps. -/
theorem C5_witness :
    check_app_status resp500 3
      = { result := CheckResult.status "down", attempts := 1, sleeps := 0 } :=
  C5_response_classified_immediately resp500 1 false (by decide) (by decide)
    (fun j hj hjk => absurd (Nat.lt_of_le_of_lt hj hjk) (by decide)) rfl

/-- Claim C6: `update_deployment_status` probes exactly the containers
whose runtime state is "running", each at the URL
http://{host}:{port}/{endpoint} (first conjunct: the probe-URL log is
precisely the running containers' URLs, so non-running containers incur
no network call; statuses are assigned per `containerStatusOf`), and
every container whose state is not "running" — such as `c` — is
assigned the status "down" (second conjunct). -/
theorem C6_probe_only_running (dep : Deployment) (env : String → Nat → ReqOutcome)
    (cs : List Container) (c : Container) (hc : c ∈ cs)
    (hrun : (c.state == "running") = false) :
    update_deployment_status dep env cs
      = (cs.map (fun x => { x with status := some (containerStatusOf dep env x) }),
         (cs.filter (fun x => x.state == "running")).map (fun x => statusUrl x.host dep))
    ∧ containerStatusOf dep env c = "down" := by
  refine ⟨update_deployment_status_eq dep env cs, ?_⟩
  unfold containerStatusOf
  rw [if_neg (by rw [hrun]; exact Bool.false_ne_true)]

/-- Witness for C6_probe_only_running: one running container probed at
http://h1:8080/health, one exited container assigned "down" with no
probe. -/
theorem C6_witness :
    update_deployment_status depW envFail [contRun, contStale]
      = ([contRun, contStale].map
          (fun x => { x with status := some (containerStatusOf depW envFail x) }),
         ([contRun, contStale].filter (fun x => x.state == "running")).map
           (fun x => statusUrl x.host depW))
    ∧ containerStatusOf depW envFail contStale = "down" :=
  C6_probe_only_running depW envFail [contRun, contStale] contStale (by decide) rfl

/-- Claim C7: a newly observed descriptor (id not persisted) is created
as `newContainer`, whose image association is some exactly when a
persisted Image's identity equals the first 8 characters of the
descriptor's image_id; with no such Image the container is still
created (first conjunct: the lookup succeeds, i.e. no error), with
image association none. -/
theorem C7_image_association (pt : String → Int) (db : DB) (hid : String)
    (infos : List ContainerInfo) (i : ContainerInfo)
    (h1 : (idsOf db.containers).Nodup) (h2 : (infoIds infos).Nodup)
    (hi : i ∈ infos) (hfresh : Container.get db i.id = none) :
    Container.get (update_host_containers pt db hid (Except.ok infos)) i.id
      = some (newContainer pt hid db i)
    ∧ ((newContainer pt hid db i).image.isSome = true
        ↔ ∃ img ∈ db.images, img.id = i.image_id.take 8)
    ∧ ((∀ img ∈ db.images, img.id ≠ i.image_id.take 8) →
        (newContainer pt hid db i).image = none) := by
  refine ⟨get_update_of_fresh pt db hid infos i h1 h2 hi hfresh, ?_, ?_⟩
  · show ((Image.get db (i.image_id.take 8)).map Image.id).isSome = true ↔ _
    have hmap : ((Image.get db (i.image_id.take 8)).map Image.id).isSome
        = (Image.get db (i.image_id.take 8)).isSome := by
      cases Image.get db (i.image_id.take 8) <;> rfl
    rw [hmap]
    unfold Image.get
    rw [List.find?_isSome]
    constructor
    · rintro ⟨img, hmem, hbeq⟩
      exact ⟨img, hmem, eq_of_beq hbeq⟩
    · rintro ⟨img, hmem, heq⟩
      exact ⟨img, hmem, by rw [heq]; simp⟩
  · intro hnone
    show ((Image.get db (i.image_id.take 8)).map Image.id) = none
    unfold Image.get
    have : db.images.find? (fun im => im.id == i.image_id.take 8) = none := by
      apply List.find?_eq_none.mpr
      intro img hmem hbeq
      exact hnone img hmem (eq_of_beq hbeq)
    rw [this]
    rfl

/-- Witness for C7_image_association: `infoNew` (image_id
"abcdef1234") is created in db2, where image "abcdef12" is persisted,
and ends up associated with it. -/
theorem C7_witness :
    Container.get (update_host_containers pt0 db2 "h1" (Except.ok [infoNew])) infoNew.id
      = some (newContainer pt0 "h1" db2 infoNew)
    ∧ ((newContainer pt0 "h1" db2 infoNew).image.isSome = true
        ↔ ∃ img ∈ db2.images, img.id = infoNew.image_id.take 8)
    ∧ ((∀ img ∈ db2.images, img.id ≠ infoNew.image_id.take 8) →
        (newContainer pt0 "h1" db2 infoNew).image = none) :=
  C7_image_association pt0 db2 "h1" [infoNew] infoNew (by decide) (by decide)
    (by decide) (by decide)

/-- Claim C10: when a descriptor's id is already persisted as `c`, the
reconciler's update branch stores exactly `applyInfo pt c i`: only
`state` and `finished_at` are written; `started_at`, `image_ref`,
`command`, the image association, the derived status and the owning
host are unchanged. -/
theorem C10_update_frame (pt : String → Int) (db : DB) (hid : String)
    (infos : List ContainerInfo) (i : ContainerInfo) (c : Container)
    (h1 : (idsOf db.containers).Nodup) (h2 : (infoIds infos).Nodup)
    (hi : i ∈ infos) (hc : c ∈ db.containers) (hcid : c.id = i.id) :
    Container.get (update_host_containers pt db hid (Except.ok infos)) i.id
      = some (applyInfo pt c i)
    ∧ (applyInfo pt c i).state = i.state
    ∧ (applyInfo pt c i).finished_at = pt i.finished_at
    ∧ (applyInfo pt c i).started_at = c.started_at
    ∧ (applyInfo pt c i).image_ref = c.image_ref
    ∧ (applyInfo pt c i).command = c.command
    ∧ (applyInfo pt c i).image = c.image
    ∧ (applyInfo pt c i).host = c.host
    ∧ (applyInfo pt c i).status = c.status
    ∧ (applyInfo pt c i).id = c.id :=
  ⟨get_update_of_present pt db hid infos i c h1 h2 hi hc hcid,
    rfl, rfl, rfl, rfl, rfl, rfl, rfl, rfl, rfl⟩

/-- Witness for C10_update_frame: descriptor `info2` updates the
persisted `cont0` in place. -/
theorem C10_witness :
    Container.get (update_host_containers pt0 db1 "h1" (Except.ok [info2])) info2.id
      = some (applyInfo pt0 cont0 info2)
    ∧ (applyInfo pt0 cont0 info2).state = info2.state
    ∧ (applyInfo pt0 cont0 info2).finished_at = pt0 info2.finished_at
    ∧ (applyInfo pt0 cont0 info2).started_at = cont0.started_at
    ∧ (applyInfo pt0 cont0 info2).image_ref = cont0.image_ref
    ∧ (applyInfo pt0 cont0 info2).command = cont0.command
    ∧ (applyInfo pt0 cont0 info2).image = cont0.image
    ∧ (applyInfo pt0 cont0 info2).host = cont0.host
    ∧ (applyInfo pt0 cont0 info2).status = cont0.status
    ∧ (applyInfo pt0 cont0 info2).id = cont0.id :=
  C10_update_frame pt0 db1 "h1" [info2] info2 cont0 (by decide) (by decide)
    (by decide) (by decide) rfl

/-- Claim C2 counterexample: `info2` shares id "c0" with the persisted
`cont0` but carries image_ref "u/app:v2" and command "serve"; after the
run the persisted container still has the OLD image_ref "u/app:v1" and
command none — the update branch does not write image_ref, started_at
or command, so the claim that all mutable fields equal the snapshot's
values is false. -/
theorem C2_counterexample :
    (Container.get (update_host_containers pt0 db1 "h1" (Except.ok [info2])) "c0").map
        Container.image_ref = some "u/app:v1"
    ∧ (Container.get (update_host_containers pt0 db1 "h1" (Except.ok [info2])) "c0").map
        Container.command = some none
    ∧ info2.image_ref = "u/app:v2"
    ∧ info2.command = some "serve"
    ∧ ("u/app:v1" : String) ≠ "u/app:v2" := by
  refine ⟨rfl, rfl, rfl, rfl, ?_⟩
  decide

/-- Claim C2 (amended): for persisted host ids S1 and snapshot ids S2,
one run deletes S1 minus S2 (first conjunct), creates S2 minus S1 with
the descriptor's fields (second conjunct), and for ids in both sets
updates only `state` and `finished_at` to the snapshot's values while
`started_at`, `image_ref` and `command` keep their previously persisted
values (third conjunct). -/
theorem C2_diff_semantics (pt : String → Int) (db : DB) (hid : String)
    (infos : List ContainerInfo)
    (h1 : (idsOf db.containers).Nodup) (h2 : (infoIds infos).Nodup)
    (hcross : ∀ c ∈ db.containers, c.id ∈ infoIds infos → c.host = hid) :
    (∀ c ∈ db.containers, c.host = hid → c.id ∉ infoIds infos →
      Container.get (update_host_containers pt db hid (Except.ok infos)) c.id = none)
    ∧ (∀ i ∈ infos, i.id ∉ idsOf (db.hostContainers hid) →
      Container.get (update_host_containers pt db hid (Except.ok infos)) i.id
        = some (newContainer pt hid db i))
    ∧ (∀ i ∈ infos, ∀ c ∈ db.containers, c.id = i.id →
      ∃ c1, Container.get (update_host_containers pt db hid (Except.ok infos)) i.id = some c1
        ∧ c1.state = i.state ∧ c1.finished_at = pt i.finished_at
        ∧ c1.started_at = c.started_at ∧ c1.image_ref = c.image_ref
        ∧ c1.command = c.command) := by
  refine ⟨?_, ?_, ?_⟩
  · intro c hc hhost hnot
    exact get_update_of_stale pt db hid infos c h1 h2 hc hhost hnot
  · intro i hi hnoth
    have hfresh : Container.get db i.id = none := by
      cases hg : Container.get db i.id with
      | none => rfl
      | some c =>
        have hget' : db.containers.find? (fun x => x.id == i.id) = some c := hg
        have hcmem : c ∈ db.containers := List.mem_of_find?_eq_some hget'
        have hpc : ((fun x : Container => x.id == i.id) c) = true :=
          List.find?_some (p := fun x : Container => x.id == i.id) hget'
        have hcid : c.id = i.id := eq_of_beq hpc
        have hchost : c.host = hid :=
          hcross c hcmem (hcid ▸ List.mem_map_of_mem ContainerInfo.id hi)
        have : i.id ∈ idsOf (db.hostContainers hid) := by
          rw [← hcid]
          exact List.mem_map_of_mem Container.id
            (List.mem_filter.mpr ⟨hcmem, by simp [hchost]⟩)
        exact absurd this hnoth
    exact get_update_of_fresh pt db hid infos i h1 h2 hi hfresh
  · intro i hi c hc hcid
    exact ⟨applyInfo pt c i,
      get_update_of_present pt db hid infos i c h1 h2 hi hc hcid,
      rfl, rfl, rfl, rfl, rfl⟩

/-- Witness for C2_diff_semantics: in db1 with snapshot [infoNew], the
stale container "c0" (in S1 minus S2) is deleted. -/
theorem C2_witness :
    Container.get (update_host_containers pt0 db1 "h1" (Except.ok [infoNew])) cont0.id
      = none :=
  (C2_diff_semantics pt0 db1 "h1" [infoNew] (by decide) (by decide) (by decide)).1 cont0
    (by decide) rfl (by decide)

/-- Claim C3: running `update_host_containers` a second time with the
same successfully fetched snapshot leaves the persisted state exactly
as after the first run: nothing is created, deleted or changed. -/
theorem C3_reconciler_idempotent (pt : String → Int) (db : DB) (hid : String)
    (infos : List ContainerInfo) (h1 : (idsOf db.containers).Nodup)
    (h2 : (infoIds infos).Nodup) :
    update_host_containers pt (update_host_containers pt db hid (Except.ok infos)) hid
        (Except.ok infos)
      = update_host_containers pt db hid (Except.ok infos) :=
  update_host_idem pt db hid infos h1 h2

/-- Witness for C3_reconciler_idempotent at db1 and snapshot [info2]. -/
theorem C3_witness :
    update_host_containers pt0 (update_host_containers pt0 db1 "h1" (Except.ok [info2])) "h1"
        (Except.ok [info2])
      = update_host_containers pt0 db1 "h1" (Except.ok [info2]) :=
  C3_reconciler_idempotent pt0 db1 "h1" [info2] (by decide) (by decide)

/-- Claim C8: in one `update_all` pass, an App unit A whose image sync
always fails (cleanly rolled back) and a Deployment unit D whose sync
always fails change nothing about the rest of the pass: the result
equals the pass in which those two units are replaced by successful
no-ops — every other App sync, every other Deployment sync and the
host-reconciliation step still run on the same states.  The failures
are caught (`update_all` is a total function built from `tryUnit`). -/
theorem C8_partial_failure_isolation (apps : List AppRec)
    (appSync depSync : String → DB → URes) (hostStep : DB → URes) (db : DB) (A D : String)
    (hA : ∀ d, appSync A d = URes.fail d) (hD : ∀ d, depSync D d = URes.fail d) :
    update_all apps appSync depSync hostStep db
      = update_all apps (fun n => if n = A then fun x => URes.ok x else appSync n)
          (fun n => if n = D then fun x => URes.ok x else depSync n) hostStep db := by
  unfold update_all
  rw [appsFold_override appSync depSync A D hA hD apps db]

/-- Witness for C8_partial_failure_isolation with two apps, failing
units and a host step that records its execution. -/
theorem C8_witness :
    update_all appsW failUnit failUnit markStep db1
      = update_all appsW (fun n => if n = "A" then fun x => URes.ok x else failUnit n)
          (fun n => if n = "D" then fun x => URes.ok x else failUnit n) markStep db1 :=
  C8_partial_failure_isolation appsW failUnit failUnit markStep db1 "A" "D"
    (fun d => rfl) (fun d => rfl)

/-- Claim C9 counterexample: in db9, host h1's snapshot carries a
malformed timestamp, whose parse exception is NOT caught inside
`update_host_containers` (only the fetch is inside the try); it aborts
the whole host loop, so the State Reconciler never runs for the
remaining host h2 (first conjunct: the step fails with the state rolled
back to db9, in which h2's stale container survives), although running
the reconciler for h2 alone would have deleted it (second conjunct). -/
theorem C9_counterexample :
    update_all_containersE (fun h d => update_host_containersE ptE0 d h (fetch9 h)) db9
      = URes.fail db9
    ∧ contStale ∈ db9.containers
    ∧ update_host_containersE ptE0 db9 "h2" (fetch9 "h2")
        = URes.ok ({ hosts := [host1, host2], containers := [], images := [] } : DB) := by
  refine ⟨rfl, by decide, rfl⟩

/-- Claim C9 (amended): a snapshot-fetch failure is isolated to its
host: when every timestamp parses, the host loop of
`update_all_containers` never aborts, whatever the per-host fetch
outcomes — the State Reconciler runs for every host in order (the
result is the pure per-host fold).  Only non-fetch failures (such as
the malformed timestamp of the counterexample) abort the loop for the
remaining hosts. -/
theorem C9_fetch_failures_isolated (pt : String → Int)
    (fetchf : String → Except Unit (List ContainerInfo)) (db : DB) :
    update_all_containersE
        (fun h d => update_host_containersE (fun s => Except.ok (pt s)) d h (fetchf h)) db
      = URes.ok (update_all_containers pt fetchf db) := by
  unfold update_all_containersE update_all_containers
  exact hostLoop_ok pt fetchf (db.hosts.map Host.hostname) db
